import Mathlib

/-!
Verification of the MCP benchmark evaluation pipeline.

The development shallowly embeds the core of the pipeline:
outcome classification of tool-call outputs, the ordering and routing
auto-scorers, trace summarisation, total-score aggregation, the
benchmark/judge CSV merge operations, and the resumable judging loop.
Strings are modelled by Lean strings (lists of characters); Python
dictionaries are modelled by association lists looked up at the first
matching key, which is faithful because Python dictionaries never hold
a duplicate key.
-/

namespace MCP

/-! ## Python string primitives -/

/-- Does the list start with the given pattern? (Python slice comparison.) -/
def startsWithSub : List Char → List Char → Bool
  | [], _ => true
  | _ :: _, [] => false
  | p :: ps, c :: cs => p == c && startsWithSub ps cs

/-- Python substring containment, as in: pat in s. -/
def pyIn (pat : List Char) : List Char → Bool
  | [] => startsWithSub pat []
  | c :: rest => startsWithSub pat (c :: rest) || pyIn pat rest

/-! ## Outcome classification (parse_results.py, parse_tool_calls, lines 63-64)

The parser inspects only the first 300 characters of the raw output:
  is_error = double-quoted error marker present and "timed out" present;
  has_data = double-quoted data marker present and error marker absent. -/

/-- Embeds: is_error = '"error"' in output_raw[:300] and "timed out" in output_raw[:300]. -/
def is_error (output_raw : List Char) : Bool :=
  pyIn "\"error\"".data (output_raw.take 300) && pyIn "timed out".data (output_raw.take 300)

/-- Embeds: has_data = '"data"' in output_raw[:300] and '"error"' not in output_raw[:300]. -/
def has_data (output_raw : List Char) : Bool :=
  pyIn "\"data\"".data (output_raw.take 300) && !pyIn "\"error\"".data (output_raw.take 300)

/-- The three-valued outcome of one tool call, as rendered by
summarize_tool_trace (OK / ERR / EMPTY) and build_all_calls_summary
(DATA / ERROR-TIMEOUT / EMPTY-NO-DATA): has_data is consulted first,
then is_error, else empty. -/
inductive Outcome where
  | HAS_DATA
  | EMPTY_NO_DATA
  | ERROR_OR_TIMEOUT
deriving DecidableEq, Repr

/-- Outcome of a call derived from its raw output text, with the
precedence used by both rendering sites in the source. -/
def outcomeOf (output_raw : List Char) : Outcome :=
  if has_data output_raw then .HAS_DATA
  else if is_error output_raw then .ERROR_OR_TIMEOUT
  else .EMPTY_NO_DATA

/-- C1: the outcome is a pure function of the first 300 characters of the
output; the error-and-timed-out combination yields ERROR_OR_TIMEOUT (the
two flags are mutually exclusive, so a data token elsewhere cannot
override it); a data marker without an error marker yields HAS_DATA;
otherwise the call is EMPTY_NO_DATA. -/
theorem outcome_classification (out : List Char) :
    (pyIn "\"error\"".data (out.take 300) = true →
      pyIn "timed out".data (out.take 300) = true →
      outcomeOf out = Outcome.ERROR_OR_TIMEOUT) ∧
    (pyIn "\"data\"".data (out.take 300) = true →
      pyIn "\"error\"".data (out.take 300) = false →
      outcomeOf out = Outcome.HAS_DATA) ∧
    ((pyIn "\"data\"".data (out.take 300) = false ∨
      pyIn "\"error\"".data (out.take 300) = true) →
     (pyIn "\"error\"".data (out.take 300) = false ∨
      pyIn "timed out".data (out.take 300) = false) →
      outcomeOf out = Outcome.EMPTY_NO_DATA) ∧
    outcomeOf out = outcomeOf (out.take 300) := by
  refine ⟨?_, ?_, ?_, ?_⟩
  · intro he ht
    simp [outcomeOf, has_data, is_error, he, ht]
  · intro hd he
    simp [outcomeOf, has_data, is_error, hd, he]
  · intro h1 h2
    rcases h1 with h1 | h1 <;> rcases h2 with h2 | h2 <;>
      simp_all [outcomeOf, has_data, is_error]
  · simp [outcomeOf, has_data, is_error, List.take_take]

/-- Witness for C1: a concrete output whose 300-character prefix holds both
the error marker and the timed-out marker, with a data token later in the
text, classifies as ERROR_OR_TIMEOUT. -/
theorem outcome_classification_witness :
    outcomeOf ("\"error\": request timed out, \"data\": [1]").data
      = Outcome.ERROR_OR_TIMEOUT :=
  (outcome_classification ("\"error\": request timed out, \"data\": [1]").data).1
    (by decide) (by decide)

/-! ## Ordering auto-scorer (judge.py, auto_score_ordering, lines 158-182)

The scorer extracts every digit immediately followed by an underscore from
the human-readable trace string, collapses consecutive duplicates
(retries), then walks a pointer over the required order 1,2,3,4. -/

/-- Embeds re.findall of a digit followed by an underscore over the trace.
The two-character pattern starts with a digit and ends with an underscore,
so matches can never overlap: findall returns exactly the digits at
positions whose successor is an underscore. -/
def extractToolNums : List Char → List Char
  | c :: d :: rest =>
    if c.isDigit && d == '_' then c :: extractToolNums (d :: rest)
    else extractToolNums (d :: rest)
  | _ => []

/-- Embeds the consecutive-duplicate collapse (retries): deduped keeps one
entrant per run of equal adjacent elements. -/
def collapseDups : List Char → List Char
  | [] => []
  | [x] => [x]
  | x :: y :: rest =>
    if x = y then collapseDups (y :: rest) else x :: collapseDups (y :: rest)

/-- The fixed required order of protocol steps, as digit characters. -/
def expectedOrder : List Char := ['1', '2', '3', '4']

/-- One iteration of the source's pointer loop: advance the pointer when
the current element matches the required-order entry at the pointer. -/
def orderStep (exp : List Char) (idx : Nat) (t : Char) : Nat :=
  if idx < exp.length ∧ exp.getD idx '?' = t then idx + 1 else idx

/-- Embeds the pointer walk: the final pointer value after scanning the
deduplicated sequence left to right. -/
def orderIdx (deduped : List Char) : Nat :=
  deduped.foldl (orderStep expectedOrder) 0

/-- The score computed from the extracted tool-number sequence: 0 for an
empty sequence, else 1 exactly when the pointer reached the end. -/
def orderScoreOfNums (tool_nums : List Char) : Nat :=
  if tool_nums.isEmpty then 0
  else if orderIdx (collapseDups tool_nums) = 4 then 1 else 0

/-- Embeds auto_score_ordering: an empty trace scores 0; otherwise the
digits-before-underscore are extracted and scored. -/
def auto_score_ordering (trace : String) : Nat :=
  if trace.data.isEmpty then 0
  else orderScoreOfNums (extractToolNums trace.data)

/-! Greedy pointer matching equals subsequence containment. -/

/-- Number of pattern elements consumed by the greedy left-to-right match
of req against ts. -/
def greedyCount : List Char → List Char → Nat
  | _, [] => 0
  | [], _ :: _ => 0
  | r :: rs, t :: ts =>
    if r = t then greedyCount rs ts + 1 else greedyCount (r :: rs) ts

theorem greedyCount_nil_left (ts : List Char) : greedyCount [] ts = 0 := by
  cases ts <;> rfl

theorem greedyCount_le (req : List Char) (ts : List Char) :
    greedyCount req ts ≤ req.length := by
  induction ts generalizing req with
  | nil => cases req <;> simp [greedyCount]
  | cons t ts ih =>
    cases req with
    | nil => simp [greedyCount]
    | cons r rs =>
      by_cases h : r = t
      · simpa [greedyCount, h] using ih rs
      · exact le_trans (by simp [greedyCount, h]; exact ih (r :: rs)) le_rfl

theorem greedyCount_eq_length_iff (req ts : List Char) :
    greedyCount req ts = req.length ↔ List.Sublist req ts := by
  induction ts generalizing req with
  | nil =>
    cases req with
    | nil => simp [greedyCount]
    | cons r rs => simp [greedyCount]
  | cons t ts ih =>
    cases req with
    | nil => simp [greedyCount_nil_left]
    | cons r rs =>
      by_cases h : r = t
      · subst h
        constructor
        · intro hc
          have : greedyCount rs ts = rs.length := by
            simpa [greedyCount] using hc
          exact List.Sublist.cons₂ r ((ih rs).mp this)
        · intro hs
          have hrs : List.Sublist rs ts := by
            cases hs with
            | cons _ h' => exact List.sublist_of_cons_sublist h'
            | cons₂ _ h' => exact h'
          simp [greedyCount, (ih rs).mpr hrs]
      · constructor
        · intro hc
          have : greedyCount (r :: rs) ts = (r :: rs).length := by
            simpa [greedyCount, h] using hc
          exact List.Sublist.cons t ((ih (r :: rs)).mp this)
        · intro hs
          have : List.Sublist (r :: rs) ts := by
            cases hs with
            | cons _ h' => exact h'
            | cons₂ _ h' => exact absurd rfl h
          simpa [greedyCount, h] using (ih (r :: rs)).mpr this

theorem foldl_orderStep (exp : List Char) (ts : List Char) :
    ∀ idx : Nat, ts.foldl (orderStep exp) idx = idx + greedyCount (exp.drop idx) ts := by
  induction ts with
  | nil => intro idx; simp [greedyCount]
  | cons t ts ih =>
    intro idx
    by_cases hlt : idx < exp.length
    · have hdrop : exp.drop idx = exp[idx] :: exp.drop (idx + 1) :=
        List.drop_eq_getElem_cons hlt
      by_cases heq : exp.getD idx '?' = t
      · have hstep : orderStep exp idx t = idx + 1 := by
          unfold orderStep; exact if_pos ⟨hlt, heq⟩
        have hx : exp[idx] = t := by
          simpa [List.getElem?_eq_getElem hlt] using heq
        calc (t :: ts).foldl (orderStep exp) idx
            = ts.foldl (orderStep exp) (idx + 1) := by simp [List.foldl_cons, hstep]
          _ = (idx + 1) + greedyCount (exp.drop (idx + 1)) ts := ih (idx + 1)
          _ = idx + greedyCount (exp.drop idx) (t :: ts) := by
              rw [hdrop]; simp [greedyCount, hx]; omega
      · have hstep : orderStep exp idx t = idx := by
          unfold orderStep; exact if_neg (fun hc => heq hc.2)
        have hx : ¬ exp[idx] = t := by
          simpa [List.getElem?_eq_getElem hlt] using heq
        calc (t :: ts).foldl (orderStep exp) idx
            = ts.foldl (orderStep exp) idx := by simp [List.foldl_cons, hstep]
          _ = idx + greedyCount (exp.drop idx) ts := ih idx
          _ = idx + greedyCount (exp.drop idx) (t :: ts) := by
              rw [hdrop]; simp [greedyCount, hx]
    · have hdrop : exp.drop idx = [] := by
        simp [List.drop_eq_nil_iff]; omega
      have hstep : orderStep exp idx t = idx := by
        unfold orderStep; exact if_neg (fun hc => hlt hc.1)
      calc (t :: ts).foldl (orderStep exp) idx
          = ts.foldl (orderStep exp) idx := by simp [List.foldl_cons, hstep]
        _ = idx + greedyCount (exp.drop idx) ts := ih idx
        _ = idx + greedyCount (exp.drop idx) (t :: ts) := by
            rw [hdrop, greedyCount_nil_left, greedyCount_nil_left]

theorem orderIdx_eq_four_iff (ts : List Char) :
    orderIdx ts = 4 ↔ List.Sublist expectedOrder ts := by
  have h := foldl_orderStep expectedOrder ts 0
  have hlen : expectedOrder.length = 4 := rfl
  rw [orderIdx, h]
  simpa [hlen] using greedyCount_eq_length_iff expectedOrder ts

/-- C2: the ordering verifier passes exactly when the required order
1,2,3,4 is a subsequence of the consecutive-duplicate-collapsed sequence;
the deduplicated sequence 2,1,3,4 fails, the retried sequence
1,1,2,3,3,3,4 passes, and the empty sequence fails. -/
theorem ordering_pass_iff_subsequence :
    (∀ seq : List Char,
      orderScoreOfNums seq = 1 ↔ List.Sublist expectedOrder (collapseDups seq)) ∧
    orderScoreOfNums ['2', '1', '3', '4'] = 0 ∧
    orderScoreOfNums ['1', '1', '2', '3', '3', '3', '4'] = 1 ∧
    orderScoreOfNums [] = 0 := by
  refine ⟨?_, by decide, by decide, by decide⟩
  intro seq
  cases seq with
  | nil => simp [orderScoreOfNums, collapseDups, expectedOrder]
  | cons x rest =>
    rw [orderScoreOfNums]
    simp only [List.isEmpty_cons, if_false, Bool.false_eq_true]
    rw [← orderIdx_eq_four_iff]
    split <;> simp_all

/-! Retry-insertion invariance of the ordering verdict. -/

theorem collapseDups_cons_cons (x : Char) (post : List Char) :
    ∀ pre : List Char,
      collapseDups (pre ++ x :: x :: post) = collapseDups (pre ++ x :: post) := by
  intro pre
  induction pre with
  | nil => simp [collapseDups]
  | cons a pre ih =>
    cases pre with
    | nil => simp [collapseDups]
    | cons b pre' =>
      simp only [List.cons_append] at ih ⊢
      rw [collapseDups, collapseDups, ih]

theorem collapseDups_replicate (x : Char) (post : List Char) (n : Nat) :
    ∀ pre : List Char,
      collapseDups (pre ++ List.replicate n x ++ x :: post)
        = collapseDups (pre ++ x :: post) := by
  induction n with
  | zero => intro pre; simp
  | succ n ih =>
    intro pre
    have h1 : pre ++ List.replicate (n + 1) x ++ x :: post
        = (pre ++ [x]) ++ List.replicate n x ++ x :: post := by
      simp [List.replicate_succ]
    rw [h1, ih (pre ++ [x])]
    have h2 : (pre ++ [x]) ++ x :: post = pre ++ x :: x :: post := by simp
    rw [h2, collapseDups_cons_cons]

/-- C6: the ordering verdict is invariant under inserting, at any
position, any number of retries of a step adjacent to an occurrence of the
same step id: the consecutive-duplicate collapse removes them. -/
theorem ordering_retry_invariant (pre post : List Char) (x : Char) (n : Nat) :
    orderScoreOfNums (pre ++ List.replicate n x ++ x :: post)
      = orderScoreOfNums (pre ++ x :: post) := by
  rw [orderScoreOfNums, orderScoreOfNums, collapseDups_replicate]
  cases pre <;> cases n <;> simp [List.replicate_succ]

/-! ## Call records and dataset detection (parse_results.py) -/

/-- A parsed argument value: a plain string, or a one-level nested mapping
with string values (the shape of the filters argument in the telemetry).
Non-string leaf values are outside the modelled telemetry fragment. -/
inductive ArgVal where
  | str (s : String)
  | dict (entries : List (String × String))
deriving DecidableEq, Repr

/-- One structured tool call as built by parse_tool_calls: the tool name,
the parsed arguments, and the raw output text (from which the outcome
flags are derived). -/
structure ToolCall where
  tool : String
  args : List (String × ArgVal)
  output : String
deriving DecidableEq, Repr

/-- First-match lookup in an argument mapping (Python dictionary access). -/
def argFind (args : List (String × ArgVal)) (k : String) : Option ArgVal :=
  (args.find? (fun p => p.1 == k)).map Prod.snd

/-- First-match lookup in a nested filters mapping. -/
def fsFind (fs : List (String × String)) (k : String) : Option String :=
  (fs.find? (fun p => p.1 == k)).map Prod.snd

/-- Embeds detect_dataset_used (parse_results.py lines 116-126): return
the dataset named by the first call whose args hold a dataset directly, or
nested under a filters mapping; the empty string when no call names one. -/
def detect_dataset_used : List ToolCall → ArgVal
  | [] => .str ""
  | c :: rest =>
    match argFind c.args "dataset" with
    | some v => v
    | none =>
      match argFind c.args "filters" with
      | some (.dict fs) =>
        match fsFind fs "dataset" with
        | some s => .str s
        | none => detect_dataset_used rest
      | _ => detect_dataset_used rest

/-! ## Routing auto-scorer (judge.py, auto_score_routing, lines 149-155) -/

/-- Python str.strip restricted to ASCII whitespace. -/
def pyStrip (s : String) : String :=
  ⟨((s.data.dropWhile Char.isWhitespace).reverse.dropWhile Char.isWhitespace).reverse⟩

/-- Python str.upper on each character. -/
def pyUpper (s : String) : String :=
  ⟨s.data.map Char.toUpper⟩

/-- Embeds auto_score_routing: strip and uppercase both labels; an empty
actual label scores 0; otherwise 1 exactly on equality. -/
def auto_score_routing (dataset dataset_routed_to : String) : Nat :=
  let expected := pyUpper (pyStrip dataset)
  let actual := pyUpper (pyStrip dataset_routed_to)
  if actual = "" then 0
  else if actual = expected then 1 else 0

/-- C5: the routing score is 1 exactly when the normalised actual label is
non-empty and equals the normalised expected label; the actual label is
the one reported by the first call naming a dataset (directly or under
filters); expected CPI with actual cpi passes and an empty actual fails. -/
theorem routing_pass_iff (dataset routed : String) :
    (auto_score_routing dataset routed = 1 ↔
      (pyUpper (pyStrip routed) ≠ "" ∧
        pyUpper (pyStrip routed) = pyUpper (pyStrip dataset))) ∧
    (∀ (c : ToolCall) (rest : List ToolCall) (v : ArgVal),
      argFind c.args "dataset" = some v →
        detect_dataset_used (c :: rest) = v) ∧
    (∀ (c : ToolCall) (rest : List ToolCall) (fs : List (String × String)) (s : String),
      argFind c.args "dataset" = none →
        argFind c.args "filters" = some (ArgVal.dict fs) →
          fsFind fs "dataset" = some s →
            detect_dataset_used (c :: rest) = ArgVal.str s) ∧
    (∀ (c : ToolCall) (rest : List ToolCall),
      argFind c.args "dataset" = none →
        argFind c.args "filters" = none →
          detect_dataset_used (c :: rest) = detect_dataset_used rest) ∧
    auto_score_routing "CPI" "cpi" = 1 ∧
    auto_score_routing "CPI" "" = 0 := by
  refine ⟨?_, ?_, ?_, ?_, by decide, by decide⟩
  · unfold auto_score_routing
    by_cases hempty : pyUpper (pyStrip routed) = ""
    · simp [hempty]
    · by_cases hmatch : pyUpper (pyStrip routed) = pyUpper (pyStrip dataset)
      · simp [hempty, hmatch]
      · simp [hempty, hmatch]
  · intro c rest v hv
    simp [detect_dataset_used, hv]
  · intro c rest fs s h1 h2 h3
    simp [detect_dataset_used, h1, h2, h3]
  · intro c rest h1 h2
    simp [detect_dataset_used, h1, h2]

/-- Witness for C5: on a single call passing the dataset directly, the
detected label is that argument, and routing of cpi against expected CPI
passes (applied at concrete inputs). -/
theorem routing_pass_iff_witness :
    detect_dataset_used [⟨"4_get_data", [("dataset", ArgVal.str "cpi")], ""⟩]
      = ArgVal.str "cpi" ∧
    auto_score_routing "CPI" "cpi" = 1 :=
  ⟨(routing_pass_iff "CPI" "cpi").2.1
      ⟨"4_get_data", [("dataset", ArgVal.str "cpi")], ""⟩ [] (ArgVal.str "cpi")
      (by decide),
    (routing_pass_iff "CPI" "cpi").2.2.2.2.1⟩

/-! ## Trace summarisation (parse_results.py, summarize_tool_trace, lines 90-113) -/

/-- Argument rendering used by the trace summary: Python
args.get(key, "?") interpolated into an f-string. The telemetry's dataset
and indicator arguments are strings; a nested mapping value is not
rendered and is modelled by the placeholder. -/
def argGetStr (args : List (String × ArgVal)) (k : String) : String :=
  match argFind args k with
  | some (.str s) => s
  | _ => "?"

/-- The short token the summary emits for one call. -/
def callToken (c : ToolCall) : String :=
  if c.tool = "1_know_about_mospi_api" then "1_know"
  else if c.tool = "2_get_indicators" then
    "2_indicators(" ++ argGetStr c.args "dataset" ++ ")"
  else if c.tool = "3_get_metadata" then
    "3_metadata(" ++ argGetStr c.args "dataset" ++ ",ind="
      ++ argGetStr c.args "indicator_code" ++ ")"
  else if c.tool = "4_get_data" then
    "4_data(" ++ argGetStr c.args "dataset" ++ ")["
      ++ (if has_data c.output.data then "OK"
          else if is_error c.output.data then "ERR" else "EMPTY") ++ "]"
  else c.tool

/-- Embeds summarize_tool_trace: the arrow-joined token string. -/
def summarize_tool_trace (calls : List ToolCall) : String :=
  String.intercalate " -> " (calls.map callToken)

/-- The four calls of the C10 scenario: step 2 is never invoked, but a
foreign tool whose name holds a digit before an underscore is called
between steps 1 and 3. -/
def c10_calls : List ToolCall :=
  [⟨"1_know_about_mospi_api", [], ""⟩,
   ⟨"foo_2_bar", [], ""⟩,
   ⟨"3_get_metadata", [], ""⟩,
   ⟨"4_get_data", [], ""⟩]

/-- C10: the ordering score is computed from the rendered trace string, so
a call sequence that never invokes step 2 still scores 1 when a
non-protocol tool name rendered into the trace supplies the digit-before-
underscore pattern for the missing step. -/
theorem ordering_scored_from_trace_string :
    c10_calls.all (fun c => !(c.tool == "2_get_indicators")) = true ∧
    extractToolNums (summarize_tool_trace c10_calls).data = ['1', '2', '3', '4'] ∧
    auto_score_ordering (summarize_tool_trace c10_calls) = 1 := by
  refine ⟨by decide, by decide, by decide⟩

/-! ## Total-score aggregation

Two code paths compute a row total. judge.py (main, lines 358-360) sums
only the strictly positive integer scores, skipping both the -1
not-applicable value and the ERR string sentinel. rerun_failed.py
(judge_single_query, lines 190-194) starts from routing + ordering and
adds every numeric judge value as-is, including a -1. -/

/-- A score cell: an integer, or a string sentinel such as ERR. -/
inductive PyVal where
  | int (n : Int)
  | str (s : String)
deriving DecidableEq, Repr

/-- Embeds the judge.py total: sum of the entries that are integers
strictly greater than zero. -/
def judge_total (scores : List PyVal) : Int :=
  scores.foldl
    (fun total s =>
      match s with
      | .int n => if 0 < n then total + n else total
      | .str _ => total) 0

/-- The four judge-result keys the rerun path adds to the total. -/
def rerun_score_keys : List String :=
  ["score_filter_accuracy", "score_data_retrieval",
   "score_response_quality", "score_behavior"]

/-- Embeds the rerun_failed.py total: routing plus ordering, then every
looked-up judge value that is numeric added as-is (a missing key
contributes the default 0; a string sentinel is skipped). -/
def rerun_total (score_routing score_ordering : Int)
    (judge_result : List (String × PyVal)) : Int :=
  rerun_score_keys.foldl
    (fun total key =>
      match ((judge_result.find? (fun p => p.1 == key)).map Prod.snd).getD (.int 0) with
      | .int n => total + n
      | .str _ => total)
    (score_routing + score_ordering)

/-- A concrete judge result in which filter accuracy is the -1
not-applicable value and the other three dimensions scored 1. -/
def c4_judge_result : List (String × PyVal) :=
  [("score_filter_accuracy", .int (-1)),
   ("score_data_retrieval", .int 1),
   ("score_response_quality", .int 1),
   ("score_behavior", .int 1)]

/-- Counterexample to C4 as stated: in the rerun_failed.py path, with
routing 1, ordering 1 and judge scores -1, 1, 1, 1, the computed total is
4, strictly below 5, the sum of the remaining positive scores (which is
what judge.py computes on the same six values): the -1 does lower the
total in that code path. -/
theorem total_score_rerun_counterexample :
    rerun_total 1 1 c4_judge_result = 4 ∧
    judge_total
      [.int 1, .int 1, .int (-1), .int 1, .int 1, .int 1] = 5 ∧
    rerun_total 1 1 c4_judge_result <
      judge_total [.int 1, .int 1, .int (-1), .int 1, .int 1, .int 1] := by
  refine ⟨by decide, by decide, by decide⟩

/-- C4 amended: in judge.py's total, a -1 entry and a string sentinel
entry contribute exactly zero wherever they occur; in the
rerun_failed.py path a numeric value is added as-is, so a -1 filter
score lowers that total by one relative to a 0. -/
theorem total_score_amended (pre post : List PyVal) (e : String) (n : Int) :
    judge_total (pre ++ PyVal.int (-1) :: post) = judge_total (pre ++ post) ∧
    judge_total (pre ++ PyVal.str e :: post) = judge_total (pre ++ post) ∧
    (∀ routing ordering : Int,
      rerun_total routing ordering
        [("score_filter_accuracy", .int n),
         ("score_data_retrieval", .int 1),
         ("score_response_quality", .int 1),
         ("score_behavior", .int 1)]
        = routing + ordering + n + 3) := by
  refine ⟨?_, ?_, ?_⟩
  · unfold judge_total
    rw [List.foldl_append, List.foldl_append, List.foldl_cons]
    norm_num
  · unfold judge_total
    rw [List.foldl_append, List.foldl_append, List.foldl_cons]
  · intro routing ordering
    have e1 : ("score_filter_accuracy" == "score_behavior") = false := by decide
    have e2 : ("score_data_retrieval" == "score_behavior") = false := by decide
    have e3 : ("score_response_quality" == "score_behavior") = false := by decide
    have e4 : ("score_filter_accuracy" == "score_response_quality") = false := by decide
    have e5 : ("score_data_retrieval" == "score_response_quality") = false := by decide
    have e6 : ("score_filter_accuracy" == "score_data_retrieval") = false := by decide
    simp only [rerun_total, rerun_score_keys, List.foldl_cons, List.foldl_nil,
      List.find?, e1, e2, e3, e4, e5, e6, beq_self_eq_true]
    simp only [Option.map_some', Option.getD_some]
    ring

/-! ## Ledger rows and merge operations (merge_results.py)

A CSV row is a mapping from field name to string value, modelled as an
association list read at the first matching key (faithful to a Python
dictionary, which holds each key once). -/

/-- One ledger row. -/
abbrev Row := List (String × String)

/-- Python row.get(k): the value at the first binding of k, if any. -/
def rowGet (r : Row) (k : String) : Option String :=
  (r.find? (fun p => p.1 == k)).map Prod.snd

/-- Python row[k] = v: replace the first binding of k, or append one. -/
def rowSet (r : Row) (k v : String) : Row :=
  match r with
  | [] => [(k, v)]
  | (k', v') :: rest =>
    if k' == k then (k, v) :: rest else (k', v') :: rowSet rest k v

/-- Python dict.update-style overwrite of every field present in upd. -/
def rowUpdate (r : Row) (upd : Row) : Row :=
  upd.foldl (fun acc p => rowSet acc p.1 p.2) r

/-- Decimal parse of a nonempty all-digit string. -/
def parseDigits : List Char → Option Nat
  | [] => none
  | cs =>
    if cs.all Char.isDigit then
      some (cs.foldl (fun acc c => acc * 10 + (c.toNat - '0'.toNat)) 0)
    else none

/-- Python int(...) of an optional string with default 0: an optional
leading minus sign then decimal digits (rows carry a well-formed numeric
query number; Python raises on anything else, which expressed totally is
the out-of-domain value 0 here). -/
def pyInt (o : Option String) : Int :=
  match o with
  | none => 0
  | some s =>
    match s.data with
    | '-' :: rest =>
      match parseDigits rest with
      | some n => -(n : Int)
      | none => 0
    | cs =>
      match parseDigits cs with
      | some n => (n : Int)
      | none => 0

/-- The identity key of an existing ledger row:
(platform, mode, dataset, int(no)), each of the first three a Python
row.get without default. -/
def benchKey (r : Row) : Option String × Option String × Option String × Int :=
  (rowGet r "platform", rowGet r "mode", rowGet r "dataset", pyInt (rowGet r "no"))

/-- The identity key of an incoming row, with the run's platform and mode
as defaults for missing fields (merge_results.py lines 43-45). -/
def newRowKey (platform mode : String) (r : Row) :
    Option String × Option String × Option String × Int :=
  (some ((rowGet r "platform").getD platform),
   some ((rowGet r "mode").getD mode),
   rowGet r "dataset", pyInt (rowGet r "no"))

/-- The new-row lookup dictionary: keyed by newRowKey, a later incoming
row with the same key overwriting an earlier one. -/
def new_lookup (platform mode : String) (new_rows : List Row)
    (key : Option String × Option String × Option String × Int) : Option Row :=
  (new_rows.filter (fun r => decide (newRowKey platform mode r = key))).getLast?

/-- Embeds merge_into_benchmark (lines 28-65): every existing row whose
key is in the lookup is overwritten field-by-field with the incoming
row's fields; all other rows pass through; nothing is appended. -/
def merge_into_benchmark (existing_rows new_rows : List Row)
    (platform mode : String) : List Row :=
  existing_rows.map (fun row =>
    match new_lookup platform mode new_rows (benchKey row) with
    | some nr => rowUpdate row nr
    | none => row)

/-! Association-list update lemmas. -/

theorem rowGet_rowSet_self (r : Row) (k v : String) :
    rowGet (rowSet r k v) k = some v := by
  induction r with
  | nil => simp [rowGet, rowSet, List.find?]
  | cons p rest ih =>
    by_cases h : p.1 == k
    · simp [rowSet, h, rowGet, List.find?]
    · simp only [rowSet]
      rw [if_neg (by simp [h])]
      simpa [rowGet, List.find?, h] using ih

theorem rowGet_rowSet_ne (r : Row) (k v k' : String) (hne : k' ≠ k) :
    rowGet (rowSet r k v) k' = rowGet r k' := by
  induction r with
  | nil =>
    have hkk : ¬ (k == k') = true := by
      simp only [beq_iff_eq]
      exact fun hh => hne hh.symm
    simp [rowGet, rowSet, List.find?, hkk]
  | cons p rest ih =>
    by_cases h : p.1 == k
    · have hpk : p.1 = k := by simpa using h
      simp only [rowSet, if_pos h]
      have h1 : ¬ (k == k') = true := by simp; exact fun hh => hne hh.symm
      have h2 : ¬ (p.1 == k') = true := by simp [hpk]; exact fun hh => hne hh.symm
      simp [rowGet, List.find?, h1, h2]
    · simp only [rowSet]
      rw [if_neg (by simp_all)]
      by_cases hpk' : p.1 == k'
      · simp [rowGet, List.find?, hpk']
      · simpa [rowGet, List.find?, hpk'] using ih

theorem rowGet_eq_none_of_not_mem (r : Row) (k : String)
    (h : k ∉ r.map Prod.fst) : rowGet r k = none := by
  induction r with
  | nil => rfl
  | cons p rest ih =>
    have h1 : ¬ p.1 = k := by
      intro hh; exact h (by simp [hh])
    have h2 : k ∉ rest.map Prod.fst := by
      intro hh; exact h (by simp [hh])
    have : ¬ (p.1 == k) = true := by simpa using h1
    simpa [rowGet, List.find?, this] using ih h2

/-- Field-level effect of a dictionary update when the incoming row's
field names are distinct: a field present in upd wins, any other field
keeps the existing value. -/
theorem rowGet_rowUpdate (upd : Row) :
    ∀ (r : Row) (k : String), (upd.map Prod.fst).Nodup →
      rowGet (rowUpdate r upd) k = (rowGet upd k).or (rowGet r k) := by
  induction upd with
  | nil => intro r k _; simp [rowUpdate, rowGet, List.find?]
  | cons p rest ih =>
    intro r k hnd
    have hnd2 : (p.1 :: rest.map Prod.fst).Nodup := by
      rw [List.map_cons] at hnd; exact hnd
    have hnd' : (rest.map Prod.fst).Nodup := hnd2.of_cons
    have hstep : rowUpdate r (p :: rest) = rowUpdate (rowSet r p.1 p.2) rest := by
      simp [rowUpdate]
    rw [hstep, ih (rowSet r p.1 p.2) k hnd']
    by_cases hk : k = p.1
    · have hnot : p.1 ∉ rest.map Prod.fst := (List.nodup_cons.mp hnd2).1
      have hrest : rowGet rest k = none := by
        rw [hk]; exact rowGet_eq_none_of_not_mem rest p.1 hnot
      have hhead : rowGet (p :: rest) k = some p.2 := by
        simp [rowGet, List.find?, hk]
      rw [hrest, hhead, hk, rowGet_rowSet_self]
      rfl
    · have hhead : rowGet (p :: rest) k = rowGet rest k := by
        have : ¬ (p.1 == k) = true := by
          simp; exact fun hh => hk hh.symm
        simp [rowGet, List.find?, this]
      rw [hhead, rowGet_rowSet_ne r p.1 p.2 k hk]

theorem new_lookup_mem (platform mode : String) (new_rows : List Row)
    (key : Option String × Option String × Option String × Int) (nr : Row)
    (h : new_lookup platform mode new_rows key = some nr) : nr ∈ new_rows := by
  have hmem := List.mem_of_getLast?_eq_some h
  exact (List.mem_filter.mp hmem).1

/-- C3: merging an update set into a benchmark ledger of N rows yields
exactly N rows in the original order; a row whose key is hit is
overwritten field-by-field (fields absent from the incoming row keep
their existing values), a row whose key is not hit is unchanged, and an
incoming row matching no existing key adds nothing. -/
theorem merge_benchmark_frame (existing new_rows : List Row) (p m : String)
    (hkeys : ∀ nr ∈ new_rows, (nr.map Prod.fst).Nodup) :
    (merge_into_benchmark existing new_rows p m).length = existing.length ∧
    (∀ i, i < existing.length →
      (new_lookup p m new_rows (benchKey (existing.getD i [])) = none →
        (merge_into_benchmark existing new_rows p m).getD i [] = existing.getD i []) ∧
      (∀ nr, new_lookup p m new_rows (benchKey (existing.getD i [])) = some nr →
        ∀ k, rowGet ((merge_into_benchmark existing new_rows p m).getD i []) k
          = (rowGet nr k).or (rowGet (existing.getD i []) k))) := by
  constructor
  · simp [merge_into_benchmark]
  · intro i hi
    have hget : (merge_into_benchmark existing new_rows p m).getD i []
        = (match new_lookup p m new_rows (benchKey (existing.getD i [])) with
           | some nr => rowUpdate (existing.getD i []) nr
           | none => existing.getD i []) := by
      unfold merge_into_benchmark
      rw [List.getD_eq_getElem?_getD, List.getElem?_map,
        List.getElem?_eq_getElem hi]
      simp [List.getD_eq_getElem?_getD, List.getElem?_eq_getElem hi]
    constructor
    · intro hnone
      rw [hget, hnone]
    · intro nr hsome k
      rw [hget, hsome]
      exact rowGet_rowUpdate nr (existing.getD i []) k
        (hkeys nr (new_lookup_mem p m new_rows _ nr hsome))

/-- Concrete data for the merge witnesses: a two-row ledger and an update
set touching the first row only. -/
def exLedger : List Row :=
  [[("platform", "claude"), ("mode", "single"), ("dataset", "CPI"),
    ("no", "3"), ("tool_trace", "old-trace"), ("got_data", "NO")],
   [("platform", "claude"), ("mode", "single"), ("dataset", "CPI"),
    ("no", "4"), ("tool_trace", "other-trace"), ("got_data", "YES")]]

/-- The incoming re-run row for query 3 (no got_data field, so that field
must be preserved by the merge). -/
def exNewRow : Row :=
  [("platform", "claude"), ("mode", "single"), ("dataset", "CPI"),
   ("no", "3"), ("tool_trace", "new-trace")]

/-- Witness for C3, applied at the concrete ledger: the merged ledger
keeps its two rows, row 3 takes the incoming trace, and its got_data
field, absent from the incoming row, keeps its existing value. -/
theorem merge_benchmark_frame_witness :
    (merge_into_benchmark exLedger [exNewRow] "claude" "single").length
      = exLedger.length ∧
    rowGet ((merge_into_benchmark exLedger [exNewRow] "claude" "single").getD 0 [])
      "tool_trace" = some "new-trace" ∧
    rowGet ((merge_into_benchmark exLedger [exNewRow] "claude" "single").getD 0 [])
      "got_data" = some "NO" := by
  have h := merge_benchmark_frame exLedger [exNewRow] "claude" "single" (by decide)
  refine ⟨h.1, ?_, ?_⟩
  · rw [(h.2 0 (by decide)).2 exNewRow (by decide) "tool_trace"]
    decide
  · rw [(h.2 0 (by decide)).2 exNewRow (by decide) "got_data"]
    decide

/-! ## Judge-ledger re-judge marking (merge_results.py, merge_into_judge,
lines 68-106) -/

/-- The ten downstream judge fields cleared when marking a row for
re-judging. -/
def judgeClearFields : List String :=
  ["score_filter_accuracy", "score_data_retrieval",
   "score_response_quality", "score_behavior",
   "filter_notes", "data_notes", "response_notes",
   "behavior_notes", "total_score", "judge_reasoning"]

/-- Clearing one row: each judge field that the row carries is set to the
empty string; a field the row does not carry is left absent. -/
def clearJudgeScores (r : Row) : Row :=
  judgeClearFields.foldl
    (fun acc f => if (rowGet acc f).isSome then rowSet acc f "" else acc) r

/-- Embeds merge_into_judge with rejudge enabled: rows whose identity key
is in the updated set have their judge fields cleared; other rows pass
through; with rejudge disabled every row passes through. -/
def merge_into_judge (existing_rows : List Row)
    (updated_queries : List (Option String × Option String × Option String × Int))
    (rejudge : Bool) : List Row :=
  existing_rows.map (fun row =>
    if benchKey row ∈ updated_queries then
      if rejudge then clearJudgeScores row else row
    else row)

theorem rowGet_clearFold (fs : List String) :
    ∀ (r : Row) (k : String),
      rowGet (fs.foldl
          (fun acc f => if (rowGet acc f).isSome then rowSet acc f "" else acc) r) k
        = if k ∈ fs ∧ (rowGet r k).isSome = true then some "" else rowGet r k := by
  induction fs with
  | nil => intro r k; simp
  | cons f fs ih =>
    intro r k
    set r' := if (rowGet r f).isSome then rowSet r f "" else r with hr'
    have hpres : ∀ k', (rowGet r' k').isSome = (rowGet r k').isSome := by
      intro k'
      rw [hr']
      by_cases hf : (rowGet r f).isSome
      · rw [if_pos hf]
        by_cases hk' : k' = f
        · subst hk'; rw [rowGet_rowSet_self]; exact (Eq.symm hf)
        · rw [rowGet_rowSet_ne r f "" k' hk']
      · rw [if_neg hf]
    have hfold : (f :: fs).foldl
        (fun acc g => if (rowGet acc g).isSome then rowSet acc g "" else acc) r
        = fs.foldl
        (fun acc g => if (rowGet acc g).isSome then rowSet acc g "" else acc) r' := by
      rw [List.foldl_cons]
    rw [hfold, ih r' k]
    by_cases hmem : k ∈ fs
    · by_cases hsome : (rowGet r k).isSome = true
      · rw [if_pos ⟨hmem, (hpres k).trans hsome⟩, if_pos ⟨List.mem_cons_of_mem f hmem, hsome⟩]
      · rw [if_neg (fun hc => hsome ((hpres k).symm.trans hc.2)),
          if_neg (fun hc => hsome hc.2)]
        rw [hr']
        by_cases hf : (rowGet r f).isSome
        · rw [if_pos hf]
          by_cases hk : k = f
          · subst hk
            exact absurd hf (by simpa using hsome)
          · rw [rowGet_rowSet_ne r f "" k hk]
        · rw [if_neg hf]
    · by_cases hk : k = f
      · subst hk
        by_cases hf : (rowGet r k).isSome
        · rw [if_neg (fun hc => hmem hc.1), if_pos ⟨List.mem_cons_self k fs, hf⟩]
          rw [hr', if_pos hf, rowGet_rowSet_self]
        · rw [if_neg (fun hc => hmem hc.1),
            if_neg (fun hc => (by simpa using hf : ¬ _) hc.2)]
          rw [hr', if_neg hf]
      · have hnotin : k ∉ (f :: fs) := by
          intro hc
          rcases List.mem_cons.mp hc with hc | hc
          · exact hk hc
          · exact hmem hc
        rw [if_neg (fun hc => hmem hc.1), if_neg (fun hc => hnotin hc.1)]
        rw [hr']
        by_cases hf : (rowGet r f).isSome
        · rw [if_pos hf, rowGet_rowSet_ne r f "" k hk]
        · rw [if_neg hf]

/-- C8: marking merged rows for re-judging clears exactly the ten
downstream judge fields of the rows whose key is in the updated set (a
field the row carries becomes empty, an absent field stays absent), and
changes nothing else: every other field of a hit row, and every row whose
key is not in the updated set, are unchanged, and no row is added or
dropped. -/
theorem merge_judge_frame (existing : List Row)
    (updated : List (Option String × Option String × Option String × Int)) :
    (merge_into_judge existing updated true).length = existing.length ∧
    (∀ i, i < existing.length →
      (benchKey (existing.getD i []) ∈ updated →
        ∀ k, rowGet ((merge_into_judge existing updated true).getD i []) k
          = if k ∈ judgeClearFields ∧ (rowGet (existing.getD i []) k).isSome = true
            then some "" else rowGet (existing.getD i []) k) ∧
      (benchKey (existing.getD i []) ∉ updated →
        (merge_into_judge existing updated true).getD i [] = existing.getD i [])) := by
  constructor
  · simp [merge_into_judge]
  · intro i hi
    have hget : (merge_into_judge existing updated true).getD i []
        = (if benchKey (existing.getD i []) ∈ updated
           then clearJudgeScores (existing.getD i []) else existing.getD i []) := by
      unfold merge_into_judge
      rw [List.getD_eq_getElem?_getD, List.getElem?_map,
        List.getElem?_eq_getElem hi]
      simp [List.getD_eq_getElem?_getD, List.getElem?_eq_getElem hi]
    constructor
    · intro hmem k
      rw [hget, if_pos hmem]
      exact rowGet_clearFold judgeClearFields (existing.getD i []) k
    · intro hnot
      rw [hget, if_neg hnot]

/-- A judge-ledger row carrying evidence fields, the auto scores and the
judge fields, for the C8 witness. -/
def exJudgeRow : Row :=
  [("platform", "claude"), ("mode", "single"), ("dataset", "CPI"),
   ("no", "3"), ("tool_trace", "evidence"), ("score_routing", "1"),
   ("score_ordering", "1"), ("score_filter_accuracy", "1"),
   ("total_score", "5")]

/-- Witness for C8, applied at a concrete one-row ledger whose key is in
the updated set: the judge field is cleared while the evidence field and
the auto-scored routing field keep their values. -/
theorem merge_judge_frame_witness :
    rowGet ((merge_into_judge [exJudgeRow]
        [(some "claude", some "single", some "CPI", 3)] true).getD 0 [])
      "score_filter_accuracy" = some "" ∧
    rowGet ((merge_into_judge [exJudgeRow]
        [(some "claude", some "single", some "CPI", 3)] true).getD 0 [])
      "tool_trace" = some "evidence" ∧
    rowGet ((merge_into_judge [exJudgeRow]
        [(some "claude", some "single", some "CPI", 3)] true).getD 0 [])
      "score_routing" = some "1" := by
  have h := (merge_judge_frame [exJudgeRow]
    [(some "claude", some "single", some "CPI", 3)]).2 0 (by decide)
  refine ⟨?_, ?_, ?_⟩
  · rw [h.1 (by decide) "score_filter_accuracy"]
    decide
  · rw [h.1 (by decide) "tool_trace"]
    decide
  · rw [h.1 (by decide) "score_routing"]
    decide

/-! ## Resumable judging loop (judge.py, main, lines 310-324)

On a resumed run the previously persisted rows are loaded, and the loop
over the input rows skips every row number below the start argument,
appending a judged output row for each remaining input row. The judged
row construction (auto scores plus the external judge's fields) is
abstracted as a function parameter; the claim is about the frame. -/

/-- Python enumerate starting at k. -/
def pyEnum (k : Nat) : List Row → List (Nat × Row)
  | [] => []
  | r :: rs => (k, r) :: pyEnum (k + 1) rs

/-- Embeds the resumed main loop: results starts as the loaded existing
rows; every input row whose 1-based number is at least start is judged
and appended in order. -/
def judge_resume_results (existing rows : List Row) (start : Nat)
    (judge_row : Row → Row) : List Row :=
  existing ++ (pyEnum 0 rows).filterMap
    (fun p => if p.1 + 1 < start then none else some (judge_row p.2))

theorem pyEnum_filterMap_drop (start : Nat) (f : Row → Row) :
    ∀ (rows : List Row) (k : Nat),
      (pyEnum k rows).filterMap
          (fun p => if p.1 + 1 < start then none else some (f p.2))
        = (rows.drop (start - 1 - k)).map f := by
  intro rows
  induction rows with
  | nil => intro k; simp [pyEnum]
  | cons r rest ih =>
    intro k
    by_cases hk : k + 1 < start
    · have h1 : start - 1 - k = (start - 1 - (k + 1)) + 1 := by omega
      rw [pyEnum, List.filterMap_cons]
      simp only [if_pos hk]
      rw [ih (k + 1), h1, List.drop_succ_cons]
    · have h1 : start - 1 - k = 0 := by omega
      have h2 : start - 1 - (k + 1) = 0 := by omega
      rw [pyEnum, List.filterMap_cons]
      simp only [if_neg hk]
      rw [ih (k + 1), h1, h2]
      simp

/-- C9: a judging run resumed at row start, with the previously judged
rows loaded as existing, emits the existing rows unchanged and in order,
followed by the judged rows for the input rows from position start
onward. -/
theorem resume_frame (existing rows : List Row) (start : Nat)
    (judge_row : Row → Row) :
    judge_resume_results existing rows start judge_row
      = existing ++ (rows.drop (start - 1)).map judge_row ∧
    (∀ i, i < existing.length →
      (judge_resume_results existing rows start judge_row).getD i []
        = existing.getD i []) := by
  have hmain : judge_resume_results existing rows start judge_row
      = existing ++ (rows.drop (start - 1)).map judge_row := by
    unfold judge_resume_results
    rw [pyEnum_filterMap_drop start judge_row rows 0, Nat.sub_zero]
  refine ⟨hmain, ?_⟩
  intro i hi
  rw [hmain, List.getD_eq_getElem?_getD, List.getElem?_append, if_pos hi,
    ← List.getD_eq_getElem?_getD]

/-- Witness for C9 at a concrete resume: start 3 with two existing rows
keeps both and appends the judged third input row. -/
theorem resume_frame_witness :
    judge_resume_results
        [[("no", "1")], [("no", "2")]]
        [[("no", "1")], [("no", "2")], [("no", "3")]] 3 (fun r => r)
      = [[("no", "1")], [("no", "2")]]
        ++ (([[("no", "1")], [("no", "2")], [("no", "3")]] : List Row).drop 2).map
            (fun r => r) ∧
    (judge_resume_results
        [[("no", "1")], [("no", "2")]]
        [[("no", "1")], [("no", "2")], [("no", "3")]] 3 (fun r => r)).getD 0 []
      = [("no", "1")] :=
  ⟨(resume_frame [[("no", "1")], [("no", "2")]]
      [[("no", "1")], [("no", "2")], [("no", "3")]] 3 (fun r => r)).1,
    (resume_frame [[("no", "1")], [("no", "2")]]
      [[("no", "1")], [("no", "2")], [("no", "3")]] 3 (fun r => r)).2 0 (by decide)⟩

/-! ## All-calls round trip
(parse_results.py, parse_json_file, lines 174-197;
 judge.py, build_all_calls_summary, lines 185-207)

parse_json_file groups the calls per tool name in first-appearance order,
each group listing its calls in call order with args, output and the two
outcome flags, and serialises the grouping with json.dumps into the
all_tool_calls CSV field; build_all_calls_summary reads it back with
json.loads and per call reads args, output, has_data and is_error (with
defaults for absent fields). The textual JSON layer is modelled by a JSON
value: json.dumps and json.loads are mutually inverse on this fragment,
so serialisation is encoding into the JSON value and deserialisation is
the shape-checked reading the consumer performs. -/

/-- One stored call record: args, output and the two outcome flags. -/
structure CallRec where
  args : List (String × ArgVal)
  output : String
  hasData : Bool
  isError : Bool
deriving DecidableEq, Repr

/-- The outcome tag build_all_calls_summary renders for a stored record:
DATA when hasData, else ERROR-TIMEOUT when isError, else EMPTY-NO-DATA. -/
def recOutcome (r : CallRec) : Outcome :=
  if r.hasData then .HAS_DATA
  else if r.isError then .ERROR_OR_TIMEOUT
  else .EMPTY_NO_DATA

/-- The stored record of one call, flags derived from its output exactly
as parse_tool_calls derived them. -/
def mkCallRec (c : ToolCall) : CallRec :=
  ⟨c.args, c.output, has_data c.output.data, is_error c.output.data⟩

/-- Append one call to its tool's group, keeping first-appearance group
order (Python dict insertion order). -/
def addCall (acc : List (String × List CallRec)) (name : String)
    (r : CallRec) : List (String × List CallRec) :=
  match acc with
  | [] => [(name, [r])]
  | (n, rs) :: rest =>
    if n == name then (n, rs ++ [r]) :: rest
    else (n, rs) :: addCall rest name r

/-- Embeds the tool_all_calls grouping of parse_json_file. -/
def groupCalls (calls : List ToolCall) : List (String × List CallRec) :=
  calls.foldl (fun acc c => addCall acc c.tool (mkCallRec c)) []

/-- JSON values (the fragment produced for all_tool_calls). -/
inductive Json where
  | str (s : String)
  | bool (b : Bool)
  | arr (elems : List Json)
  | obj (fields : List (String × Json))
deriving Repr

/-- Encoding of an argument value. -/
def argValToJson : ArgVal → Json
  | .str s => .str s
  | .dict d => .obj (d.map (fun p => (p.1, Json.str p.2)))

/-- Encoding of one stored call record. -/
def callRecToJson (r : CallRec) : Json :=
  .obj [("args", .obj (r.args.map (fun p => (p.1, argValToJson p.2)))),
        ("output", .str r.output),
        ("has_data", .bool r.hasData),
        ("is_error", .bool r.isError)]

/-- Encoding of the whole grouping, i.e. the serialised all_tool_calls
value. -/
def groupedToJson (g : List (String × List CallRec)) : Json :=
  .obj (g.map (fun p => (p.1, Json.arr (p.2.map callRecToJson))))

/-- Field access in a decoded JSON object (Python dict access). -/
def jsonGet (fs : List (String × Json)) (k : String) : Option Json :=
  (fs.find? (fun p => p.1 == k)).map Prod.snd

/-- Decoding of a string-valued mapping (a filters value). -/
def decodeStrEntries : List (String × Json) → Option (List (String × String))
  | [] => some []
  | (k, .str s) :: rest => (decodeStrEntries rest).map (fun l => (k, s) :: l)
  | _ => none

/-- Decoding of an argument value. -/
def jsonToArgVal : Json → Option ArgVal
  | .str s => some (.str s)
  | .obj fs => (decodeStrEntries fs).map ArgVal.dict
  | _ => none

/-- Decoding of an args mapping. -/
def decodeArgs : List (String × Json) → Option (List (String × ArgVal))
  | [] => some []
  | (k, v) :: rest => do
    let a ← jsonToArgVal v
    let l ← decodeArgs rest
    pure ((k, a) :: l)

/-- Decoding of one stored call record, with the consumer's defaults for
absent fields (empty args, empty output, false flags). -/
def jsonToCallRec : Json → Option CallRec
  | .obj fs => do
    let args ←
      match jsonGet fs "args" with
      | none => some []
      | some (.obj a) => decodeArgs a
      | some _ => none
    let output ←
      match jsonGet fs "output" with
      | none => some ""
      | some (.str s) => some s
      | some _ => none
    let hasData ←
      match jsonGet fs "has_data" with
      | none => some false
      | some (.bool b) => some b
      | some _ => none
    let isError ←
      match jsonGet fs "is_error" with
      | none => some false
      | some (.bool b) => some b
      | some _ => none
    pure ⟨args, output, hasData, isError⟩
  | _ => none

/-- Decoding of one tool's call list. -/
def decodeCallRecs : List Json → Option (List CallRec)
  | [] => some []
  | j :: rest => do
    let c ← jsonToCallRec j
    let l ← decodeCallRecs rest
    pure (c :: l)

/-- Decoding of the grouping's entries. -/
def decodeGroupEntries : List (String × Json) → Option (List (String × List CallRec))
  | [] => some []
  | (k, .arr js) :: rest => do
    let cs ← decodeCallRecs js
    let l ← decodeGroupEntries rest
    pure ((k, cs) :: l)
  | _ => none

/-- Decoding of the whole stored all_tool_calls value. -/
def jsonToGrouped : Json → Option (List (String × List CallRec)) :=
  fun j =>
    match j with
    | .obj fs => decodeGroupEntries fs
    | _ => none

/-- The (tool, args, outcome) triples of a grouping, one per recorded
call, in group order. -/
def groupTriples (g : List (String × List CallRec)) :
    List (String × List (String × ArgVal) × Outcome) :=
  g.foldr (fun p acc => p.2.map (fun r => (p.1, r.args, recOutcome r)) ++ acc) []

theorem jsonToArgVal_roundtrip (v : ArgVal) :
    jsonToArgVal (argValToJson v) = some v := by
  cases v with
  | str s => rfl
  | dict d =>
    have h : decodeStrEntries (d.map (fun p => (p.1, Json.str p.2))) = some d := by
      induction d with
      | nil => rfl
      | cons p rest ih => simp [decodeStrEntries, ih]
    simp [argValToJson, jsonToArgVal, h]

theorem decodeArgs_roundtrip (args : List (String × ArgVal)) :
    decodeArgs (args.map (fun p => (p.1, argValToJson p.2))) = some args := by
  induction args with
  | nil => rfl
  | cons p rest ih =>
    simp [decodeArgs, jsonToArgVal_roundtrip, ih]

theorem jsonToCallRec_roundtrip (r : CallRec) :
    jsonToCallRec (callRecToJson r) = some r := by
  have e1 : ("args" == "output") = false := by decide
  have e2 : ("args" == "has_data") = false := by decide
  have e3 : ("args" == "is_error") = false := by decide
  have e4 : ("output" == "has_data") = false := by decide
  have e5 : ("output" == "is_error") = false := by decide
  have e6 : ("has_data" == "is_error") = false := by decide
  simp only [callRecToJson, jsonToCallRec, jsonGet, List.find?,
    e1, e2, e3, e4, e5, e6, beq_self_eq_true, Option.map_some']
  simp [decodeArgs_roundtrip]

theorem decodeCallRecs_roundtrip (rs : List CallRec) :
    decodeCallRecs (rs.map callRecToJson) = some rs := by
  induction rs with
  | nil => rfl
  | cons r rest ih =>
    simp [decodeCallRecs, jsonToCallRec_roundtrip, ih]

theorem decodeGroupEntries_roundtrip (g : List (String × List CallRec)) :
    decodeGroupEntries (g.map (fun p => (p.1, Json.arr (p.2.map callRecToJson))))
      = some g := by
  induction g with
  | nil => rfl
  | cons p rest ih =>
    simp [decodeGroupEntries, decodeCallRecs_roundtrip, ih]

/-- C7: serialising the per-tool-call grouping of any call sequence to its
storage form and deserialising it back recovers the grouping exactly, and
with it the (tool, args, outcome) triples of every recorded call. -/
theorem all_calls_roundtrip (calls : List ToolCall) :
    jsonToGrouped (groupedToJson (groupCalls calls)) = some (groupCalls calls) ∧
    (jsonToGrouped (groupedToJson (groupCalls calls))).map groupTriples
      = some (groupTriples (groupCalls calls)) := by
  have h : jsonToGrouped (groupedToJson (groupCalls calls)) = some (groupCalls calls) := by
    unfold groupedToJson jsonToGrouped
    exact decodeGroupEntries_roundtrip (groupCalls calls)
  exact ⟨h, by rw [h, Option.map_some']⟩

end MCP
